import Mathlib

/-!
Verification of the source-directory compile pipeline of this repository
(`compileSrcDir`, `scanDir`, `copySourceSassFilesToDest`, `isValidDirectory`).

The pipeline scans a directory tree for typed-script sources, transpiles them
through an external Transpiler collaborator, merges the resulting units into a
shared accumulator, asks the external ManifestBuilder for a manifest, and
mirrors referenced stylesheet assets into the pending-write map.  The host
file system, path library and the two collaborators are external; they are
embedded here as oracle values (a tree for the file system, function records
for the rest), so every theorem quantifies over their behaviour.

The promise chain of the source is cooperative and single threaded; it is
embedded as explicit state passing in the deterministic schedule in which the
entries of one directory are processed in listing order and every started
asset read settles before the surrounding aggregate is observed.
-/

set_option autoImplicit false

namespace Stencil

/-- A diagnostic record appended to the build's diagnostics list. -/
structure Diagnostic where
  message : String
  deriving Repr, DecidableEq

/-- One module-file record: the source path it is keyed by, the produced
output path and text, and the stylesheet assets it references. -/
structure ModuleFile where
  tsFilePath : String
  jsFilePath : String
  jsText : String
  includedSassFiles : List String
  deriving Repr, DecidableEq

/-- The build's output accumulator (`CompileResults` in the source): the
module-file map, the aggregated diagnostics, the opaque manifest value and
the deduplicated referenced-asset list. -/
structure CompileResults where
  moduleFiles : List (String × ModuleFile)
  diagnostics : List Diagnostic
  manifest : String
  includedSassFiles : List String
  deriving Repr, DecidableEq

/-- The mutable build context: the pending-write map from destination path to
content, owned by one build run. -/
structure BuildContext where
  filesToWrite : List (String × String)
  deriving Repr, DecidableEq

/-- The immutable build configuration consumed by the pipeline. -/
structure BuildConfig where
  src : String
  rootDir : String
  collectionDest : String
  exclude : List String
  generateCollection : Bool
  deriving Repr, DecidableEq

/-- Modelled from the spec: the host file-system and path abstraction
(the `fsHost` capability of §6) with `joinPath`, `relativePath` and
`readFile`; the functions are kept abstract and every theorem quantifies
over them. -/
structure Sys where
  join : String → String → String
  relative : String → String → String
  readFile : String → Except String String

/-- A file tree as observed through the host file system: a plain file, a
readable directory with named children, a directory whose listing call fails,
or an entry whose stat call fails (carrying the host's error message). -/
inductive FsEntry where
  | file : FsEntry
  | dir : List (String × FsEntry) → FsEntry
  | unreadableDir : FsEntry
  | statFail : String → FsEntry
  deriving Repr

/-- Does the character list start with the given pattern list. -/
def listStartsWith : List Char → List Char → Bool
  | _, [] => true
  | [], _ :: _ => false
  | a :: as, b :: bs => a == b && listStartsWith as bs

/-- Does the pattern list occur contiguously inside the character list: the
embedding of the JavaScript test `s.indexOf(pat) > -1`. -/
def listOccurs : List Char → List Char → Bool
  | [], pat => listStartsWith [] pat
  | a :: rest, pat => listStartsWith (a :: rest) pat || listOccurs rest pat

/-- `pat` occurs in `s` as a contiguous substring. -/
def strContains (s pat : String) : Bool := listOccurs s.data pat.data

/-- `s` starts with `pat`: the embedding of `s.indexOf(pat) === 0`. -/
def strStartsWith (s pat : String) : Bool := listStartsWith s.data pat.data

/-- Modelled from the spec: path normalization belongs to the host path
library, an external collaborator (§1, §6); on the already-normalized paths
modelled here it is the identity. -/
def normalizePath (p : String) : String := p

/-- Modelled from the spec: `isTsSourceFile` (imported from `./util`, which is
not among the sources here) is the file-kind predicate marking typed-script
extensions as compilable source (§4.1). -/
def isTsSourceFile (p : String) : Bool :=
  listStartsWith p.data.reverse ".ts".data.reverse ||
    listStartsWith p.data.reverse ".tsx".data.reverse

/-- Modelled from the spec: `catchError` (imported from `./util`) converts a
caught fault into one diagnostic record appended to the diagnostics list; the
diagnostics sequence is append-only (§3 invariant 4, §7). -/
def catchError (diagnostics : List Diagnostic) (err : String) : List Diagnostic :=
  diagnostics ++ [Diagnostic.mk err]

/-- JavaScript object key assignment on a string-keyed map embedded as an
association list: overwrite in place when the key is present, append the new
entry otherwise. -/
def setAssoc {α : Type} : List (String × α) → String → α → List (String × α)
  | [], k, v => [(k, v)]
  | (k0, v0) :: rest, k, v =>
    if k0 = k then (k, v) :: rest else (k0, v0) :: setAssoc rest k v

/-- Key lookup in the association-list embedding of a string-keyed map. -/
def lookupAssoc {α : Type} : List (String × α) → String → Option α
  | [], _ => none
  | (k0, v0) :: rest, k => if k0 = k then some v0 else lookupAssoc rest k

/-- The key list of an association-list map. -/
def keysOf {α : Type} (m : List (String × α)) : List String := m.map Prod.fst

/-- From the source (`isValidDirectory`): walk the exclude list and reject the
path as soon as some pattern occurs in it as a substring. -/
def isValidDirectory : List String → String → Bool
  | [], _ => true
  | pat :: rest, filePath =>
    if strContains filePath pat then false else isValidDirectory rest filePath

/-- Modelled from the spec: `getModuleFile` (imported from
`./transpile/compiler-host`) loads the module-file record for a discovered
typed-script path; the record is keyed by the normalized source path, and its
output fields are filled in only later by the Transpiler collaborator
(§4.2, §4.3). -/
def getModuleFile (_config : BuildConfig) (tsFilePath : String) : ModuleFile :=
  { tsFilePath := normalizePath tsFilePath
    jsFilePath := ""
    jsText := ""
    includedSassFiles := [] }

/-- From the source (`scanDir`, plain-file branch): register a typed-script
file in the module-file map under the key of its module-file record; any other
plain file is ignored. -/
def scanFile (config : BuildConfig) (readPath : String) (acc : CompileResults) :
    CompileResults :=
  if isTsSourceFile readPath then
    let moduleFile := getModuleFile config readPath
    { acc with moduleFiles := setAssoc acc.moduleFiles moduleFile.tsFilePath moduleFile }
  else acc

/-- From the source (`scanDir`, inner loop): process the listed entries of one
directory — skip every entry whose joined path fails `isValidDirectory`, turn
a failing stat call into one appended diagnostic and continue with the
siblings, drill into sub-directories, and register every typed-script file in
the module-file map. -/
def scanItems :
    BuildConfig → Sys → String → List (String × FsEntry) → CompileResults → CompileResults
  | _, _, _, [], acc => acc
  | config, sys, dir, (name, FsEntry.statFail msg) :: rest, acc =>
    scanItems config sys dir rest
      (if isValidDirectory config.exclude (sys.join dir name) then
        { acc with diagnostics := catchError acc.diagnostics msg }
      else acc)
  | config, sys, dir, (name, FsEntry.dir es) :: rest, acc =>
    scanItems config sys dir rest
      (if isValidDirectory config.exclude (sys.join dir name) then
        scanItems config sys (normalizePath (sys.join dir name)) es acc
      else acc)
  | config, sys, dir, (_, FsEntry.unreadableDir) :: rest, acc =>
    scanItems config sys dir rest acc
  | config, sys, dir, (name, FsEntry.file) :: rest, acc =>
    scanItems config sys dir rest
      (if isValidDirectory config.exclude (sys.join dir name) then
        scanFile config (sys.join dir name) acc
      else acc)

/-- From the source (`scanDir`): list the directory; when the listing call
fails the scan step resolves with the accumulator unchanged, otherwise the
listed entries are processed by `scanItems`. -/
def scanDir (config : BuildConfig) (sys : Sys) (dir : String) (root : Option FsEntry)
    (acc : CompileResults) : CompileResults :=
  match root with
  | some (FsEntry.dir entries) => scanItems config sys (normalizePath dir) entries acc
  | _ => acc

/-- From the source (`compileSrcDir`, asset merge): push an asset path onto
the running list only when it is not already present. -/
def pushUnique (l : List String) (x : String) : List String :=
  if x ∈ l then l else l ++ [x]

/-- Push every element of `xs` onto `l`, skipping the ones already present. -/
def pushUniqueAll (l : List String) (xs : List String) : List String :=
  xs.foldl pushUnique l

/-- From the source (`compileSrcDir`, merge loop body): merge one transpiled
unit — store it in the module-file map under its key, record its produced
output text as a pending write exactly when `generateCollection` is set, and
append its referenced assets without duplicates. -/
def mergeUnit (config : BuildConfig) (st : BuildContext × CompileResults)
    (km : String × ModuleFile) : BuildContext × CompileResults :=
  let res1 := { st.2 with moduleFiles := setAssoc st.2.moduleFiles km.1 km.2 }
  let ctx1 :=
    if config.generateCollection then
      { filesToWrite := setAssoc st.1.filesToWrite km.2.jsFilePath km.2.jsText }
    else st.1
  (ctx1,
    { res1 with
      includedSassFiles := pushUniqueAll res1.includedSassFiles km.2.includedSassFiles })

/-- From the source (`compileSrcDir`, merge loop): fold `mergeUnit` over the
units returned by the transpiler, when it returned any. -/
def mergeTranspiled (config : BuildConfig) (ctx : BuildContext) (res : CompileResults) :
    Option (List (String × ModuleFile)) → BuildContext × CompileResults
  | none => (ctx, res)
  | some mfs => mfs.foldl (mergeUnit config) (ctx, res)

/-- One step of the asset-mirroring loop of `copySourceSassFilesToDest`: read
the asset; on success compute the destination under the dual policy (inside
the source root versus outside it) and record the pending write; on failure
keep the first read error for the surrounding aggregate and leave the
pending-write map untouched. -/
def copyOne (config : BuildConfig) (sys : Sys) (st : BuildContext × Option String)
    (sassSrcPath : String) : BuildContext × Option String :=
  let p := normalizePath sassSrcPath
  match sys.readFile p with
  | Except.error e =>
    (st.1,
      match st.2 with
      | some e0 => some e0
      | none => some e)
  | Except.ok sassSrcText =>
    let includeDir := strStartsWith p config.src
    let sassDestPath :=
      if includeDir then
        normalizePath (sys.join config.collectionDest (sys.relative config.src p))
      else
        normalizePath (sys.join config.rootDir (sys.relative config.rootDir p))
    ({ filesToWrite := setAssoc st.1.filesToWrite sassDestPath sassSrcText }, st.2)

/-- From the source (`copySourceSassFilesToDest`): a no-op unless
`generateCollection` is set; otherwise mirror every referenced asset and
report the first read failure, if any, to the surrounding chain. -/
def copySourceSassFilesToDest (config : BuildConfig) (sys : Sys) (ctx : BuildContext)
    (compileResults : CompileResults) : BuildContext × Except String Unit :=
  if config.generateCollection then
    let st := compileResults.includedSassFiles.foldl (copyOne config sys) (ctx, none)
    (st.1,
      match st.2 with
      | some e => Except.error e
      | none => Except.ok ())
  else (ctx, Except.ok ())

/-- The shape of the external Transpiler collaborator's batch result. -/
structure TranspileResults where
  diagnostics : List Diagnostic
  moduleFiles : Option (List (String × ModuleFile))
  deriving Repr, DecidableEq

/-- Modelled from the spec: the external collaborators of §6 — the Transpiler
batch call and the ManifestBuilder — as oracle functions that either return a
value or raise a fault. -/
structure Collaborators where
  transpileFn :
    BuildConfig → BuildContext → List (String × ModuleFile) → Except String TranspileResults
  generateManifestFn : BuildConfig → BuildContext → CompileResults → Except String String

/-- The fresh accumulator created at the top of `compileSrcDir`. -/
def emptyCompileResults : CompileResults :=
  { moduleFiles := [], diagnostics := [], manifest := "", includedSassFiles := [] }

/-- From the source (`compileSrcDir`): scan, transpile, merge, build the
manifest, mirror assets; the first fault raised by a phase skips the remaining
phases and is converted into an appended diagnostic, and a `CompileResults`
value is returned in every case. -/
def compileSrcDir (config : BuildConfig) (sys : Sys) (collab : Collaborators)
    (root : Option FsEntry) (ctx : BuildContext) : BuildContext × CompileResults :=
  let afterScan := scanDir config sys config.src root emptyCompileResults
  match collab.transpileFn config ctx afterScan.moduleFiles with
  | Except.error err =>
    (ctx, { afterScan with diagnostics := catchError afterScan.diagnostics err })
  | Except.ok transpileResults =>
    let resT := { afterScan with
                  diagnostics := afterScan.diagnostics ++ transpileResults.diagnostics }
    let merged := mergeTranspiled config ctx resT transpileResults.moduleFiles
    match collab.generateManifestFn config merged.1 merged.2 with
    | Except.error err =>
      (merged.1, { merged.2 with diagnostics := catchError merged.2.diagnostics err })
    | Except.ok manifestValue =>
      let resM := { merged.2 with manifest := manifestValue }
      match copySourceSassFilesToDest config sys merged.1 resM with
      | (ctx2, Except.error err) =>
        (ctx2, { resM with diagnostics := catchError resM.diagnostics err })
      | (ctx2, Except.ok _) => (ctx2, resM)

/-- The typed-script paths the scan registers, in traversal order: the
specification function for the module-file effect of `scanItems`. -/
def scanTsPaths (exclude : List String) (sys : Sys) :
    String → List (String × FsEntry) → List String
  | _, [] => []
  | dir, (name, FsEntry.dir es) :: rest =>
    (if isValidDirectory exclude (sys.join dir name) then
      scanTsPaths exclude sys (normalizePath (sys.join dir name)) es
    else []) ++ scanTsPaths exclude sys dir rest
  | dir, (name, FsEntry.file) :: rest =>
    (if isValidDirectory exclude (sys.join dir name) && isTsSourceFile (sys.join dir name) then
      [sys.join dir name]
    else []) ++ scanTsPaths exclude sys dir rest
  | dir, (_, FsEntry.unreadableDir) :: rest => scanTsPaths exclude sys dir rest
  | dir, (_, FsEntry.statFail _) :: rest => scanTsPaths exclude sys dir rest

/-- The stat-failure messages the scan converts into diagnostics, in traversal
order: the specification function for the diagnostics effect of `scanItems`. -/
def scanStatFails (exclude : List String) (sys : Sys) :
    String → List (String × FsEntry) → List String
  | _, [] => []
  | dir, (name, FsEntry.statFail msg) :: rest =>
    (if isValidDirectory exclude (sys.join dir name) then [msg] else []) ++
      scanStatFails exclude sys dir rest
  | dir, (name, FsEntry.dir es) :: rest =>
    (if isValidDirectory exclude (sys.join dir name) then
      scanStatFails exclude sys (normalizePath (sys.join dir name)) es
    else []) ++ scanStatFails exclude sys dir rest
  | dir, (_, FsEntry.unreadableDir) :: rest => scanStatFails exclude sys dir rest
  | dir, (_, FsEntry.file) :: rest => scanStatFails exclude sys dir rest

/-- Every typed-script path of the tree, ignoring the exclude list. -/
def allTsPaths (sys : Sys) : String → List (String × FsEntry) → List String
  | _, [] => []
  | dir, (name, FsEntry.dir es) :: rest =>
    allTsPaths sys (normalizePath (sys.join dir name)) es ++ allTsPaths sys dir rest
  | dir, (name, FsEntry.file) :: rest =>
    (if isTsSourceFile (sys.join dir name) then [sys.join dir name] else []) ++
      allTsPaths sys dir rest
  | dir, (_, FsEntry.unreadableDir) :: rest => allTsPaths sys dir rest
  | dir, (_, FsEntry.statFail _) :: rest => allTsPaths sys dir rest

/-- No stat or listing call fails anywhere below the given entries. -/
def itemsNoFsErrors : List (String × FsEntry) → Bool
  | [] => true
  | (_, FsEntry.file) :: rest => itemsNoFsErrors rest
  | (_, FsEntry.dir es) :: rest => itemsNoFsErrors es && itemsNoFsErrors rest
  | (_, FsEntry.unreadableDir) :: _ => false
  | (_, FsEntry.statFail _) :: _ => false

/-- Every joined path below the given entries passes `isValidDirectory`. -/
def itemsAllValid (exclude : List String) (sys : Sys) :
    String → List (String × FsEntry) → Bool
  | _, [] => true
  | dir, (name, FsEntry.dir es) :: rest =>
    (isValidDirectory exclude (sys.join dir name) &&
      itemsAllValid exclude sys (normalizePath (sys.join dir name)) es) &&
      itemsAllValid exclude sys dir rest
  | dir, (name, FsEntry.file) :: rest =>
    isValidDirectory exclude (sys.join dir name) && itemsAllValid exclude sys dir rest
  | dir, (name, FsEntry.unreadableDir) :: rest =>
    isValidDirectory exclude (sys.join dir name) && itemsAllValid exclude sys dir rest
  | dir, (name, FsEntry.statFail _) :: rest =>
    isValidDirectory exclude (sys.join dir name) && itemsAllValid exclude sys dir rest

/-- Register one scanned typed-script path in the module-file map: the step
function of the scan's module-file fold. -/
def mfAdd (config : BuildConfig) (m : List (String × ModuleFile)) (p : String) :
    List (String × ModuleFile) :=
  setAssoc m (getModuleFile config p).tsFilePath (getModuleFile config p)

/-- All assets referenced by a list of transpiled units, concatenated in unit
order. -/
def flatAssets : List (String × ModuleFile) → List String
  | [] => []
  | km :: rest => km.2.includedSassFiles ++ flatAssets rest

/-- The elements of the second list that are not in `seen`, each kept at its
first occurrence only, in order of first discovery. -/
def firstOccurrences : List String → List String → List String
  | _, [] => []
  | seen, x :: xs =>
    if x ∈ seen then firstOccurrences seen xs
    else x :: firstOccurrences (seen ++ [x]) xs

/-- The concatenating path join used to state tree-wide exclusion facts: a
child's joined path extends its parent's path. -/
def slashJoin (a b : String) : String := a ++ "/" ++ b

/-- A concrete relative-path function for the demonstration host: drop the
base prefix and the separator. -/
def demoRelative (base p : String) : String :=
  (p.data.drop (base.data.length + 1)).asString

/-- A demonstration host whose reads always succeed. -/
def demoSys : Sys :=
  { join := slashJoin
    relative := demoRelative
    readFile := fun p => Except.ok ("content " ++ p) }

/-- A demonstration host for which exactly one asset read fails. -/
def demoSysBad : Sys :=
  { join := slashJoin
    relative := demoRelative
    readFile := fun p =>
      if p = "/src/bad.scss" then Except.error "boom bad.scss"
      else Except.ok ("content " ++ p) }

/-- A demonstration configuration with collection output enabled. -/
def demoConfig : BuildConfig :=
  { src := "/src"
    rootDir := "/proj"
    collectionDest := "/dist/collection"
    exclude := ["ignored"]
    generateCollection := true }

/-- The demonstration configuration with collection output disabled. -/
def demoConfigOff : BuildConfig := { demoConfig with generateCollection := false }

/-- An empty demonstration build context. -/
def demoCtx : BuildContext := { filesToWrite := [] }

/-- A small demonstration source tree. -/
def demoTree : List (String × FsEntry) :=
  [("a.ts", FsEntry.file),
   ("b.txt", FsEntry.file),
   ("sub", FsEntry.dir [("c.ts", FsEntry.file)]),
   ("ignored", FsEntry.dir [("d.ts", FsEntry.file)])]

/-- A demonstration transpiled unit referencing one stylesheet asset. -/
def demoUnit : ModuleFile :=
  { tsFilePath := "/src/a.ts"
    jsFilePath := "/dist/collection/a.js"
    jsText := "var a"
    includedSassFiles := ["/src/bad.scss"] }

/-- Collaborators that succeed and return no transpiled units. -/
def demoCollabOk : Collaborators :=
  { transpileFn := fun _ _ _ => Except.ok { diagnostics := [], moduleFiles := none }
    generateManifestFn := fun _ _ _ => Except.ok "manifest" }

/-- Collaborators whose transpile batch call raises a fault. -/
def demoCollabTransErr : Collaborators :=
  { transpileFn := fun _ _ _ => Except.error "transpile boom"
    generateManifestFn := fun _ _ _ => Except.ok "manifest" }

/-- Collaborators whose manifest builder raises a fault. -/
def demoCollabManErr : Collaborators :=
  { transpileFn := fun _ _ _ => Except.ok { diagnostics := [], moduleFiles := none }
    generateManifestFn := fun _ _ _ => Except.error "manifest boom" }

/-- Collaborators that return one unit referencing the failing asset. -/
def demoCollabAsset : Collaborators :=
  { transpileFn := fun _ _ _ =>
      Except.ok { diagnostics := [], moduleFiles := some [("/src/a.ts", demoUnit)] }
    generateManifestFn := fun _ _ _ => Except.ok "manifest" }

@[simp] theorem normalizePath_eq (p : String) : normalizePath p = p := rfl

@[simp] theorem getModuleFile_tsFilePath (config : BuildConfig) (p : String) :
    (getModuleFile config p).tsFilePath = p := rfl

theorem listStartsWith_iff (pat s : List Char) :
    listStartsWith s pat = true ↔ ∃ r, s = pat ++ r := by
  induction pat generalizing s with
  | nil => simp [listStartsWith]
  | cons b bs ih =>
    cases s with
    | nil => simp [listStartsWith]
    | cons a as =>
      simp only [listStartsWith, Bool.and_eq_true, beq_iff_eq, ih, List.cons_append]
      constructor
      · rintro ⟨rfl, r, rfl⟩
        exact ⟨r, rfl⟩
      · rintro ⟨r, h⟩
        cases h
        exact ⟨rfl, r, rfl⟩

theorem listStartsWith_append (s pat t : List Char) (h : listStartsWith s pat = true) :
    listStartsWith (s ++ t) pat = true := by
  rcases (listStartsWith_iff pat s).1 h with ⟨r, rfl⟩
  exact (listStartsWith_iff pat _).2 ⟨r ++ t, by simp⟩

theorem listOccurs_iff (pat s : List Char) :
    listOccurs s pat = true ↔ ∃ l r, s = l ++ (pat ++ r) := by
  induction s with
  | nil =>
    simp only [listOccurs, listStartsWith_iff]
    constructor
    · rintro ⟨r, h⟩
      exact ⟨[], r, h⟩
    · rintro ⟨l, r, h⟩
      rcases List.append_eq_nil.mp h.symm with ⟨rfl, h2⟩
      exact ⟨r, by simpa using h⟩
  | cons a rest ih =>
    simp only [listOccurs, Bool.or_eq_true, listStartsWith_iff, ih]
    constructor
    · rintro (⟨r, h⟩ | ⟨l, r, h⟩)
      · exact ⟨[], r, by simpa using h⟩
      · exact ⟨a :: l, r, by simp [h]⟩
    · rintro ⟨l, r, h⟩
      cases l with
      | nil => exact Or.inl ⟨r, by simpa using h⟩
      | cons c l' =>
        simp only [List.cons_append, List.cons.injEq] at h
        exact Or.inr ⟨l', r, h.2⟩

theorem listOccurs_append (s pat t : List Char) (h : listOccurs s pat = true) :
    listOccurs (s ++ t) pat = true := by
  rcases (listOccurs_iff pat s).1 h with ⟨l, r, rfl⟩
  exact (listOccurs_iff pat _).2 ⟨l, r ++ t, by simp⟩

theorem strContains_iff (s pat : String) :
    strContains s pat = true ↔ ∃ l r, s.data = l ++ (pat.data ++ r) := by
  exact listOccurs_iff pat.data s.data

theorem strContains_of_parts (l pat r : String) :
    strContains (l ++ pat ++ r) pat = true := by
  refine (strContains_iff _ _).2 ⟨l.data, r.data, ?_⟩
  simp [String.data_append]

theorem strContains_append (d t pat : String) (h : strContains d pat = true) :
    strContains (d ++ t) pat = true := by
  have := listOccurs_append d.data pat.data t.data h
  simpa [strContains, String.data_append] using this

theorem isValidDirectory_eq_false (exclude : List String) (path pat : String)
    (hmem : pat ∈ exclude) (hc : strContains path pat = true) :
    isValidDirectory exclude path = false := by
  induction exclude with
  | nil => cases hmem
  | cons q rest ih =>
    simp only [isValidDirectory]
    rcases List.mem_cons.mp hmem with rfl | hmem2
    · simp [hc]
    · by_cases hq : strContains path q = true
      · simp [hq]
      · simp only [Bool.not_eq_true] at hq
        simp [hq, ih hmem2]

theorem isValidDirectory_eq_true (exclude : List String) (path : String)
    (h : ∀ pat ∈ exclude, strContains path pat = false) :
    isValidDirectory exclude path = true := by
  induction exclude with
  | nil => rfl
  | cons q rest ih =>
    simp only [isValidDirectory, h q (List.mem_cons_self q rest)]
    exact ih fun pat hp => h pat (List.mem_cons_of_mem q hp)

theorem exists_contains_of_not_valid (exclude : List String) (path : String)
    (h : isValidDirectory exclude path = false) :
    ∃ pat ∈ exclude, strContains path pat = true := by
  induction exclude with
  | nil => simp [isValidDirectory] at h
  | cons q rest ih =>
    by_cases hq : strContains path q = true
    · exact ⟨q, List.mem_cons_self q rest, hq⟩
    · simp only [Bool.not_eq_true] at hq
      simp only [isValidDirectory, hq, Bool.false_eq_true, if_false] at h
      rcases ih h with ⟨pat, hp, hc⟩
      exact ⟨pat, List.mem_cons_of_mem q hp, hc⟩

theorem isValidDirectory_append_false (exclude : List String) (d t : String)
    (h : isValidDirectory exclude d = false) :
    isValidDirectory exclude (d ++ t) = false := by
  rcases exists_contains_of_not_valid exclude d h with ⟨pat, hp, hc⟩
  exact isValidDirectory_eq_false exclude (d ++ t) pat hp (strContains_append d t pat hc)

@[simp] theorem keysOf_nil {α : Type} : keysOf ([] : List (String × α)) = [] := rfl

@[simp] theorem keysOf_cons {α : Type} (p : String × α) (rest : List (String × α)) :
    keysOf (p :: rest) = p.1 :: keysOf rest := rfl

@[simp] theorem keysOf_append {α : Type} (m l : List (String × α)) :
    keysOf (m ++ l) = keysOf m ++ keysOf l := by
  simp [keysOf]

theorem keysOf_setAssoc_of_mem {α : Type} (m : List (String × α)) (k : String) (v : α)
    (h : k ∈ keysOf m) : keysOf (setAssoc m k v) = keysOf m := by
  induction m with
  | nil => simp at h
  | cons p rest ih =>
    obtain ⟨k0, v0⟩ := p
    by_cases hk : k0 = k
    · subst hk
      simp [setAssoc]
    · simp only [keysOf_cons, List.mem_cons] at h
      rcases h with h | h
      · exact absurd h.symm hk
      · simp [setAssoc, hk, ih h]

theorem setAssoc_of_not_mem {α : Type} (m : List (String × α)) (k : String) (v : α)
    (h : k ∉ keysOf m) : setAssoc m k v = m ++ [(k, v)] := by
  induction m with
  | nil => rfl
  | cons p rest ih =>
    obtain ⟨k0, v0⟩ := p
    simp only [keysOf_cons, List.mem_cons, not_or] at h
    have hk : ¬ k0 = k := fun e => h.1 e.symm
    simp [setAssoc, hk, ih h.2]

theorem mem_keysOf_setAssoc_self {α : Type} (m : List (String × α)) (k : String) (v : α) :
    k ∈ keysOf (setAssoc m k v) := by
  induction m with
  | nil => simp [setAssoc]
  | cons p rest ih =>
    obtain ⟨k0, v0⟩ := p
    by_cases hk : k0 = k
    · simp [setAssoc, hk]
    · simp only [setAssoc, if_neg hk, keysOf_cons, List.mem_cons]
      exact Or.inr ih

theorem mem_keysOf_setAssoc_of_mem {α : Type} (m : List (String × α)) (k k' : String) (v : α)
    (h : k' ∈ keysOf m) : k' ∈ keysOf (setAssoc m k v) := by
  induction m with
  | nil => simp at h
  | cons p rest ih =>
    obtain ⟨k0, v0⟩ := p
    simp only [keysOf_cons, List.mem_cons] at h
    by_cases hk : k0 = k
    · subst hk
      rcases h with rfl | h
      · simp [setAssoc]
      · simp [setAssoc, h]
    · simp only [setAssoc, if_neg hk, keysOf_cons, List.mem_cons]
      rcases h with rfl | h
      · exact Or.inl rfl
      · exact Or.inr (ih h)

theorem mem_keysOf_setAssoc {α : Type} (m : List (String × α)) (k k' : String) (v : α)
    (h : k' ∈ keysOf (setAssoc m k v)) : k' = k ∨ k' ∈ keysOf m := by
  induction m with
  | nil =>
    simp only [setAssoc, keysOf_cons, keysOf_nil, List.mem_singleton] at h
    exact Or.inl h
  | cons p rest ih =>
    obtain ⟨k0, v0⟩ := p
    by_cases hk : k0 = k
    · subst hk
      simp only [setAssoc, if_pos, keysOf_cons, List.mem_cons] at h
      rcases h with rfl | h
      · exact Or.inl rfl
      · exact Or.inr (by simp [h])
    · simp only [setAssoc, if_neg hk, keysOf_cons, List.mem_cons] at h
      rcases h with rfl | h
      · exact Or.inr (by simp)
      · rcases ih h with rfl | h2
        · exact Or.inl rfl
        · exact Or.inr (by simp [h2])

theorem lookupAssoc_setAssoc_self {α : Type} (m : List (String × α)) (k : String) (v : α) :
    lookupAssoc (setAssoc m k v) k = some v := by
  induction m with
  | nil => simp [setAssoc, lookupAssoc]
  | cons p rest ih =>
    obtain ⟨k0, v0⟩ := p
    by_cases hk : k0 = k
    · simp [setAssoc, hk, lookupAssoc]
    · simp [setAssoc, hk, lookupAssoc, ih]

theorem scanItems_eq (config : BuildConfig) (sys : Sys) (dir : String)
    (items : List (String × FsEntry)) (acc : CompileResults) :
    scanItems config sys dir items acc =
      { moduleFiles :=
          (scanTsPaths config.exclude sys dir items).foldl (mfAdd config) acc.moduleFiles
        diagnostics :=
          acc.diagnostics ++ (scanStatFails config.exclude sys dir items).map Diagnostic.mk
        manifest := acc.manifest
        includedSassFiles := acc.includedSassFiles } := by
  induction config, sys, dir, items, acc using scanItems.induct with
  | case1 config sys dir acc => simp [scanItems, scanTsPaths, scanStatFails]
  | case2 config sys dir name msg rest acc ih =>
    by_cases hv : isValidDirectory config.exclude (sys.join dir name) = true
    · simp [hv, catchError] at ih
      simp [scanItems, scanTsPaths, scanStatFails, hv, ih, catchError]
    · simp only [Bool.not_eq_true] at hv
      simp [hv] at ih
      simp [scanItems, scanTsPaths, scanStatFails, hv, ih]
  | case3 config sys dir name es rest acc ihsub ih =>
    by_cases hv : isValidDirectory config.exclude (sys.join dir name) = true
    · simp [hv] at ihsub ih
      rw [ihsub] at ih
      simp [scanItems, scanTsPaths, scanStatFails, hv, ihsub, ih, List.foldl_append]
    · simp only [Bool.not_eq_true] at hv
      simp [hv] at ih
      simp [scanItems, scanTsPaths, scanStatFails, hv, ih]
  | case4 config sys dir name rest acc ih =>
    by_cases hv : isValidDirectory config.exclude (sys.join dir name) = true
    · simp [scanItems, scanTsPaths, scanStatFails, hv, ih]
    · simp only [Bool.not_eq_true] at hv
      simp [scanItems, scanTsPaths, scanStatFails, hv, ih]
  | case5 config sys dir name rest acc ih =>
    by_cases hv : isValidDirectory config.exclude (sys.join dir name) = true
    · simp [hv] at ih
      by_cases hts : isTsSourceFile (sys.join dir name) = true
      · simp [scanFile, hts, mfAdd] at ih
        simp [scanItems, scanTsPaths, scanStatFails, scanFile, hv, hts, ih, mfAdd]
      · simp only [Bool.not_eq_true] at hts
        simp [scanFile, hts] at ih
        simp [scanItems, scanTsPaths, scanStatFails, scanFile, hv, hts, ih]
    · simp only [Bool.not_eq_true] at hv
      simp [hv] at ih
      simp [scanItems, scanTsPaths, scanStatFails, hv, ih]

theorem scanDir_some_dir (config : BuildConfig) (sys : Sys) (dir : String)
    (entries : List (String × FsEntry)) (acc : CompileResults) :
    scanDir config sys dir (some (FsEntry.dir entries)) acc =
      scanItems config sys (normalizePath dir) entries acc := rfl

theorem scanTsPaths_valid (exclude : List String) (sys : Sys) (dir : String)
    (items : List (String × FsEntry)) (p : String)
    (hp : p ∈ scanTsPaths exclude sys dir items) : isValidDirectory exclude p = true := by
  induction dir, items using scanTsPaths.induct exclude sys with
  | case1 dir => simp [scanTsPaths] at hp
  | case2 dir name es rest ihsub ih =>
    by_cases hv : isValidDirectory exclude (sys.join dir name) = true
    · simp only [scanTsPaths, hv, if_true, List.mem_append] at hp
      rcases hp with hp | hp
      · exact ihsub hp
      · exact ih hp
    · simp only [Bool.not_eq_true] at hv
      simp only [scanTsPaths, hv, Bool.false_eq_true, if_false, List.nil_append] at hp
      exact ih hp
  | case3 dir name rest ih =>
    by_cases hc :
        (isValidDirectory exclude (sys.join dir name) && isTsSourceFile (sys.join dir name)) = true
    · have hc2 := hc
      simp only [Bool.and_eq_true] at hc2
      simp only [scanTsPaths, hc, if_true, List.mem_append, List.mem_singleton] at hp
      rcases hp with rfl | hp
      · exact hc2.1
      · exact ih hp
    · simp only [Bool.not_eq_true] at hc
      simp only [scanTsPaths, hc, Bool.false_eq_true, if_false, List.nil_append] at hp
      exact ih hp
  | case4 dir name rest ih =>
    simp only [scanTsPaths] at hp
    exact ih hp
  | case5 dir name msg rest ih =>
    simp only [scanTsPaths] at hp
    exact ih hp

theorem scanStatFails_nil_of_noFsErrors (exclude : List String) (sys : Sys) (dir : String)
    (items : List (String × FsEntry)) (h : itemsNoFsErrors items = true) :
    scanStatFails exclude sys dir items = [] := by
  induction dir, items using scanStatFails.induct exclude sys with
  | case1 dir => simp [scanStatFails]
  | case2 dir name msg rest ih => simp [itemsNoFsErrors] at h
  | case3 dir name es rest ihsub ih =>
    simp only [itemsNoFsErrors, Bool.and_eq_true] at h
    by_cases hv : isValidDirectory exclude (sys.join dir name) = true
    · have ihsub2 := ihsub h.1
      simp only [normalizePath_eq] at ihsub2
      simp [scanStatFails, hv, ihsub2, ih h.2]
    · simp only [Bool.not_eq_true] at hv
      simp [scanStatFails, hv, ih h.2]
  | case4 dir name rest ih => simp [itemsNoFsErrors] at h
  | case5 dir name rest ih =>
    simp only [itemsNoFsErrors] at h
    simp [scanStatFails, ih h]

theorem scanTsPaths_append (exclude : List String) (sys : Sys) (dir : String)
    (l1 l2 : List (String × FsEntry)) :
    scanTsPaths exclude sys dir (l1 ++ l2) =
      scanTsPaths exclude sys dir l1 ++ scanTsPaths exclude sys dir l2 := by
  induction dir, l1 using scanTsPaths.induct exclude sys with
  | case1 dir => simp [scanTsPaths]
  | case2 dir name es rest ihsub ih => simp [scanTsPaths, ih]
  | case3 dir name rest ih => simp [scanTsPaths, ih]
  | case4 dir name rest ih => simp [scanTsPaths, ih]
  | case5 dir name msg rest ih => simp [scanTsPaths, ih]

theorem scanStatFails_append (exclude : List String) (sys : Sys) (dir : String)
    (l1 l2 : List (String × FsEntry)) :
    scanStatFails exclude sys dir (l1 ++ l2) =
      scanStatFails exclude sys dir l1 ++ scanStatFails exclude sys dir l2 := by
  induction dir, l1 using scanStatFails.induct exclude sys with
  | case1 dir => simp [scanStatFails]
  | case2 dir name msg rest ih => simp [scanStatFails, ih]
  | case3 dir name es rest ihsub ih => simp [scanStatFails, ih]
  | case4 dir name rest ih => simp [scanStatFails, ih]
  | case5 dir name rest ih => simp [scanStatFails, ih]

theorem allTsPaths_append (sys : Sys) (dir : String) (l1 l2 : List (String × FsEntry)) :
    allTsPaths sys dir (l1 ++ l2) = allTsPaths sys dir l1 ++ allTsPaths sys dir l2 := by
  induction dir, l1 using allTsPaths.induct sys with
  | case1 dir => simp [allTsPaths]
  | case2 dir name es rest ihsub ih => simp [allTsPaths, ih]
  | case3 dir name rest ih => simp [allTsPaths, ih]
  | case4 dir name rest ih => simp [allTsPaths, ih]
  | case5 dir name msg rest ih => simp [allTsPaths, ih]

theorem itemsAllValid_append (exclude : List String) (sys : Sys) (dir : String)
    (l1 l2 : List (String × FsEntry)) :
    itemsAllValid exclude sys dir (l1 ++ l2) =
      (itemsAllValid exclude sys dir l1 && itemsAllValid exclude sys dir l2) := by
  induction dir, l1 using itemsAllValid.induct exclude sys with
  | case1 dir => simp [itemsAllValid]
  | case2 dir name es rest ihsub ih => simp [itemsAllValid, ih, Bool.and_assoc]
  | case3 dir name rest ih => simp [itemsAllValid, ih, Bool.and_assoc]
  | case4 dir name rest ih => simp [itemsAllValid, ih, Bool.and_assoc]
  | case5 dir name msg rest ih => simp [itemsAllValid, ih, Bool.and_assoc]

theorem scanTsPaths_eq_allTsPaths (exclude : List String) (sys : Sys) (dir : String)
    (items : List (String × FsEntry)) (h : itemsAllValid exclude sys dir items = true) :
    scanTsPaths exclude sys dir items = allTsPaths sys dir items := by
  induction dir, items using scanTsPaths.induct exclude sys with
  | case1 dir => simp [scanTsPaths, allTsPaths]
  | case2 dir name es rest ihsub ih =>
    simp only [itemsAllValid, Bool.and_eq_true] at h
    have ihsub2 := ihsub h.1.2
    simp only [normalizePath_eq] at ihsub2
    simp [scanTsPaths, allTsPaths, h.1.1, ihsub2, ih h.2]
  | case3 dir name rest ih =>
    simp only [itemsAllValid, Bool.and_eq_true] at h
    simp [scanTsPaths, allTsPaths, h.1, ih h.2]
  | case4 dir name rest ih =>
    simp only [itemsAllValid, Bool.and_eq_true] at h
    simp [scanTsPaths, allTsPaths, ih h.2]
  | case5 dir name msg rest ih =>
    simp only [itemsAllValid, Bool.and_eq_true] at h
    simp [scanTsPaths, allTsPaths, ih h.2]

theorem allTsPaths_mem_slash (sys : Sys) (hjoin : sys.join = slashJoin) (dir : String)
    (items : List (String × FsEntry)) (p : String) (hp : p ∈ allTsPaths sys dir items) :
    ∃ s, p = dir ++ "/" ++ s := by
  induction dir, items using allTsPaths.induct sys with
  | case1 dir => simp [allTsPaths] at hp
  | case2 dir name es rest ihsub ih =>
    simp only [allTsPaths, List.mem_append] at hp
    rcases hp with hp | hp
    · rcases ihsub hp with ⟨s, hs⟩
      refine ⟨name ++ "/" ++ s, ?_⟩
      rw [hs]
      simp only [normalizePath_eq, hjoin, slashJoin, String.append_assoc]
    · exact ih hp
  | case3 dir name rest ih =>
    by_cases hts : isTsSourceFile (sys.join dir name) = true
    · simp only [allTsPaths, hts, if_true, List.mem_append, List.mem_singleton] at hp
      rcases hp with rfl | hp
      · exact ⟨name, by rw [hjoin]; rfl⟩
      · exact ih hp
    · simp only [Bool.not_eq_true] at hts
      simp only [allTsPaths, hts, Bool.false_eq_true, if_false, List.nil_append] at hp
      exact ih hp
  | case4 dir name rest ih =>
    simp only [allTsPaths] at hp
    exact ih hp
  | case5 dir name msg rest ih =>
    simp only [allTsPaths] at hp
    exact ih hp

theorem scanTsPaths_filter_slash (exclude : List String) (sys : Sys)
    (hjoin : sys.join = slashJoin) (dir : String) (items : List (String × FsEntry)) :
    scanTsPaths exclude sys dir items =
      (allTsPaths sys dir items).filter (fun q => isValidDirectory exclude q) := by
  induction dir, items using scanTsPaths.induct exclude sys with
  | case1 dir => simp [scanTsPaths, allTsPaths]
  | case2 dir name es rest ihsub ih =>
    simp only [normalizePath_eq] at ihsub
    by_cases hv : isValidDirectory exclude (sys.join dir name) = true
    · simp [scanTsPaths, allTsPaths, hv, ihsub, ih, List.filter_append]
    · simp only [Bool.not_eq_true] at hv
      have hsub : ∀ q ∈ allTsPaths sys (normalizePath (sys.join dir name)) es,
          isValidDirectory exclude q = false := by
        intro q hq
        rcases allTsPaths_mem_slash sys hjoin _ es q hq with ⟨s, hs⟩
        rw [hs]
        simp only [normalizePath_eq]
        exact isValidDirectory_append_false exclude _ s
          (isValidDirectory_append_false exclude _ "/" hv)
      have hfil : (allTsPaths sys (normalizePath (sys.join dir name)) es).filter
          (fun q => isValidDirectory exclude q) = [] := by
        rw [List.filter_eq_nil_iff]
        intro q hq
        simp [hsub q hq]
      simp only [normalizePath_eq] at hfil
      simp [scanTsPaths, allTsPaths, hv, ih, List.filter_append, hfil]
  | case3 dir name rest ih =>
    by_cases hv : isValidDirectory exclude (sys.join dir name) = true
    · by_cases hts : isTsSourceFile (sys.join dir name) = true
      · simp [scanTsPaths, allTsPaths, hv, hts, ih, List.filter_append]
      · simp only [Bool.not_eq_true] at hts
        simp [scanTsPaths, allTsPaths, hv, hts, ih, List.filter_append]
    · simp only [Bool.not_eq_true] at hv
      by_cases hts : isTsSourceFile (sys.join dir name) = true
      · simp [scanTsPaths, allTsPaths, hv, hts, ih, List.filter_append]
      · simp only [Bool.not_eq_true] at hts
        simp [scanTsPaths, allTsPaths, hv, hts, ih, List.filter_append]
  | case4 dir name rest ih => simp [scanTsPaths, allTsPaths, ih]
  | case5 dir name msg rest ih => simp [scanTsPaths, allTsPaths, ih]

theorem mem_keysOf_foldl_mfAdd_of_mem {config : BuildConfig} (ps : List String)
    (m : List (String × ModuleFile)) (k : String) (h : k ∈ keysOf m) :
    k ∈ keysOf (ps.foldl (mfAdd config) m) := by
  induction ps generalizing m with
  | nil => exact h
  | cons p rest ih =>
    simp only [List.foldl_cons]
    refine ih _ ?_
    simp only [mfAdd, getModuleFile_tsFilePath]
    exact mem_keysOf_setAssoc_of_mem m _ k _ h

theorem mem_keysOf_foldl_mfAdd_self {config : BuildConfig} (ps : List String)
    (m : List (String × ModuleFile)) (p : String) (h : p ∈ ps) :
    p ∈ keysOf (ps.foldl (mfAdd config) m) := by
  induction ps generalizing m with
  | nil => cases h
  | cons q rest ih =>
    simp only [List.foldl_cons]
    rcases List.mem_cons.mp h with rfl | h2
    · refine mem_keysOf_foldl_mfAdd_of_mem rest _ p ?_
      simp only [mfAdd, getModuleFile_tsFilePath]
      exact mem_keysOf_setAssoc_self m p _
    · exact ih _ h2

theorem mem_keysOf_foldl_mfAdd {config : BuildConfig} (ps : List String)
    (m : List (String × ModuleFile)) (k : String)
    (h : k ∈ keysOf (ps.foldl (mfAdd config) m)) : k ∈ keysOf m ∨ k ∈ ps := by
  induction ps generalizing m with
  | nil => exact Or.inl h
  | cons p rest ih =>
    simp only [List.foldl_cons] at h
    rcases ih _ h with h2 | h2
    · simp only [mfAdd, getModuleFile_tsFilePath] at h2
      rcases mem_keysOf_setAssoc m p k _ h2 with rfl | h3
      · exact Or.inr (List.mem_cons_self _ _)
      · exact Or.inl h3
    · exact Or.inr (List.mem_cons_of_mem _ h2)

theorem keysOf_foldl_mfAdd_of_nodup {config : BuildConfig} (ps : List String)
    (m : List (String × ModuleFile)) (hnd : ps.Nodup) (hfresh : ∀ p ∈ ps, p ∉ keysOf m) :
    keysOf (ps.foldl (mfAdd config) m) = keysOf m ++ ps := by
  induction ps generalizing m with
  | nil => simp
  | cons p rest ih =>
    simp only [List.foldl_cons]
    have hp : p ∉ keysOf m := hfresh p (List.mem_cons_self _ _)
    have hstep : mfAdd config m p = m ++ [(p, getModuleFile config p)] := by
      simp only [mfAdd, getModuleFile_tsFilePath]
      exact setAssoc_of_not_mem m p _ hp
    rw [hstep, ih]
    · simp
    · exact (List.nodup_cons.mp hnd).2
    · intro q hq
      simp only [keysOf_append, keysOf_cons, keysOf_nil, List.mem_append,
        List.mem_singleton, not_or]
      refine ⟨hfresh q (List.mem_cons_of_mem _ hq), ?_⟩
      intro he
      exact (List.nodup_cons.mp hnd).1 (he ▸ hq)

theorem mergeUnit_fst (config : BuildConfig) (st : BuildContext × CompileResults)
    (km : String × ModuleFile) :
    (mergeUnit config st km).1 =
      if config.generateCollection then
        { filesToWrite := setAssoc st.1.filesToWrite km.2.jsFilePath km.2.jsText }
      else st.1 := rfl

theorem mergeUnit_snd (config : BuildConfig) (st : BuildContext × CompileResults)
    (km : String × ModuleFile) :
    (mergeUnit config st km).2 =
      { moduleFiles := setAssoc st.2.moduleFiles km.1 km.2
        diagnostics := st.2.diagnostics
        manifest := st.2.manifest
        includedSassFiles :=
          pushUniqueAll st.2.includedSassFiles km.2.includedSassFiles } := rfl

theorem mergeFold_diagnostics (config : BuildConfig) (mfs : List (String × ModuleFile)) :
    ∀ st : BuildContext × CompileResults,
      (mfs.foldl (mergeUnit config) st).2.diagnostics = st.2.diagnostics := by
  induction mfs with
  | nil => intro st; rfl
  | cons km rest ih =>
    intro st
    rw [List.foldl_cons, ih, mergeUnit_snd]

theorem mergeFold_manifest (config : BuildConfig) (mfs : List (String × ModuleFile)) :
    ∀ st : BuildContext × CompileResults,
      (mfs.foldl (mergeUnit config) st).2.manifest = st.2.manifest := by
  induction mfs with
  | nil => intro st; rfl
  | cons km rest ih =>
    intro st
    rw [List.foldl_cons, ih, mergeUnit_snd]

theorem mergeFold_keysOf (config : BuildConfig) (mfs : List (String × ModuleFile)) :
    ∀ st : BuildContext × CompileResults,
      (∀ k ∈ keysOf mfs, k ∈ keysOf st.2.moduleFiles) →
      keysOf (mfs.foldl (mergeUnit config) st).2.moduleFiles = keysOf st.2.moduleFiles := by
  induction mfs with
  | nil => intro st _; rfl
  | cons km rest ih =>
    intro st hsub
    rw [List.foldl_cons]
    have hk : km.1 ∈ keysOf st.2.moduleFiles := hsub km.1 (by simp)
    have hkeys : keysOf (mergeUnit config st km).2.moduleFiles = keysOf st.2.moduleFiles := by
      rw [mergeUnit_snd]
      exact keysOf_setAssoc_of_mem _ _ _ hk
    rw [ih _ ?_, hkeys]
    intro k hkmem
    rw [hkeys]
    exact hsub k (by simp [hkmem])

theorem mergeFold_includedSass (config : BuildConfig) (mfs : List (String × ModuleFile)) :
    ∀ st : BuildContext × CompileResults,
      (mfs.foldl (mergeUnit config) st).2.includedSassFiles =
        pushUniqueAll st.2.includedSassFiles (flatAssets mfs) := by
  induction mfs with
  | nil => intro st; rfl
  | cons km rest ih =>
    intro st
    rw [List.foldl_cons, ih, mergeUnit_snd, flatAssets]
    simp only [pushUniqueAll, List.foldl_append]

theorem mergeTranspiled_some (config : BuildConfig) (ctx : BuildContext)
    (res : CompileResults) (mfs : List (String × ModuleFile)) :
    mergeTranspiled config ctx res (some mfs) = mfs.foldl (mergeUnit config) (ctx, res) := rfl

theorem mergeTranspiled_none (config : BuildConfig) (ctx : BuildContext)
    (res : CompileResults) :
    mergeTranspiled config ctx res none = (ctx, res) := rfl

theorem pushUniqueAll_eq_firstOccurrences (xs : List String) :
    ∀ seen, pushUniqueAll seen xs = seen ++ firstOccurrences seen xs := by
  induction xs with
  | nil => intro seen; simp [pushUniqueAll, firstOccurrences]
  | cons x rest ih =>
    intro seen
    by_cases hx : x ∈ seen
    · simp only [pushUniqueAll, List.foldl_cons, pushUnique, if_pos hx,
        firstOccurrences, ih]
      exact ih seen
    · simp only [pushUniqueAll, List.foldl_cons, pushUnique, if_neg hx, firstOccurrences]
      rw [show (rest.foldl pushUnique (seen ++ [x])) = pushUniqueAll (seen ++ [x]) rest from rfl,
        ih]
      simp

theorem mem_firstOccurrences (xs : List String) :
    ∀ seen x, x ∈ firstOccurrences seen xs → x ∉ seen ∧ x ∈ xs := by
  induction xs with
  | nil => intro seen x hx; simp [firstOccurrences] at hx
  | cons y rest ih =>
    intro seen x hx
    by_cases hy : y ∈ seen
    · simp only [firstOccurrences, if_pos hy] at hx
      rcases ih seen x hx with ⟨h1, h2⟩
      exact ⟨h1, List.mem_cons_of_mem _ h2⟩
    · simp only [firstOccurrences, if_neg hy, List.mem_cons] at hx
      rcases hx with rfl | hx
      · exact ⟨hy, List.mem_cons_self _ _⟩
      · rcases ih _ x hx with ⟨h1, h2⟩
        simp only [List.mem_append, List.mem_singleton, not_or] at h1
        exact ⟨h1.1, List.mem_cons_of_mem _ h2⟩

theorem firstOccurrences_nodup (xs : List String) :
    ∀ seen, (firstOccurrences seen xs).Nodup := by
  induction xs with
  | nil => intro seen; simp [firstOccurrences]
  | cons y rest ih =>
    intro seen
    by_cases hy : y ∈ seen
    · simp only [firstOccurrences, if_pos hy]
      exact ih seen
    · simp only [firstOccurrences, if_neg hy, List.nodup_cons]
      refine ⟨?_, ih _⟩
      intro hmem
      rcases mem_firstOccurrences rest _ y hmem with ⟨h1, _⟩
      simp at h1

theorem mem_pushUniqueAll (xs : List String) :
    ∀ seen x, x ∈ pushUniqueAll seen xs ↔ x ∈ seen ∨ x ∈ xs := by
  induction xs with
  | nil => intro seen x; simp [pushUniqueAll]
  | cons y rest ih =>
    intro seen x
    simp only [pushUniqueAll, List.foldl_cons] at ih ⊢
    rw [ih]
    by_cases hy : y ∈ seen
    · simp only [pushUnique, if_pos hy, List.mem_cons]
      constructor
      · rintro (h | h)
        · exact Or.inl h
        · exact Or.inr (Or.inr h)
      · rintro (h | rfl | h)
        · exact Or.inl h
        · exact Or.inl hy
        · exact Or.inr h
    · simp only [pushUnique, if_neg hy, List.mem_append, List.mem_singleton, List.mem_cons]
      tauto

theorem copyOne_error (config : BuildConfig) (sys : Sys) (c : BuildContext)
    (o : Option String) (p e : String)
    (h : sys.readFile (normalizePath p) = Except.error e) :
    copyOne config sys (c, o) p =
      (c, match o with
          | some e0 => some e0
          | none => some e) := by
  simp only [copyOne, h]

theorem copyOne_ok (config : BuildConfig) (sys : Sys) (c : BuildContext)
    (o : Option String) (p t : String)
    (h : sys.readFile (normalizePath p) = Except.ok t) :
    copyOne config sys (c, o) p =
      ({ filesToWrite :=
          setAssoc c.filesToWrite
            (if strStartsWith (normalizePath p) config.src then
              normalizePath
                (sys.join config.collectionDest (sys.relative config.src (normalizePath p)))
            else
              normalizePath
                (sys.join config.rootDir (sys.relative config.rootDir (normalizePath p)))) t },
        o) := by
  simp only [copyOne, h]

theorem copyOne_fst_indep (config : BuildConfig) (sys : Sys) (c : BuildContext)
    (o o2 : Option String) (p : String) :
    (copyOne config sys (c, o) p).1 = (copyOne config sys (c, o2) p).1 := by
  rcases h : sys.readFile (normalizePath p) with e | t
  · rw [copyOne_error config sys c o p e h, copyOne_error config sys c o2 p e h]
  · rw [copyOne_ok config sys c o p t h, copyOne_ok config sys c o2 p t h]

theorem copyFold_fst_indep (config : BuildConfig) (sys : Sys) (ps : List String) :
    ∀ (c : BuildContext) (o o2 : Option String),
      (ps.foldl (copyOne config sys) (c, o)).1 = (ps.foldl (copyOne config sys) (c, o2)).1 := by
  induction ps with
  | nil => intro c o o2; rfl
  | cons p rest ih =>
    intro c o o2
    simp only [List.foldl_cons]
    rcases h : sys.readFile (normalizePath p) with e | t
    · rw [copyOne_error config sys c o p e h, copyOne_error config sys c o2 p e h]
      exact ih c _ _
    · rw [copyOne_ok config sys c o p t h, copyOne_ok config sys c o2 p t h]
      exact ih _ _ _

theorem copyFold_some (config : BuildConfig) (sys : Sys) (ps : List String) :
    ∀ (c : BuildContext) (e : String),
      (ps.foldl (copyOne config sys) (c, some e)).2 = some e := by
  induction ps with
  | nil => intro c e; rfl
  | cons p rest ih =>
    intro c e
    simp only [List.foldl_cons]
    rcases h : sys.readFile (normalizePath p) with e2 | t
    · rw [copyOne_error config sys c (some e) p e2 h]
      exact ih c e
    · rw [copyOne_ok config sys c (some e) p t h]
      exact ih _ e

theorem copyFold_ok_none (config : BuildConfig) (sys : Sys) (ps : List String)
    (hok : ∀ q ∈ ps, ∃ t, sys.readFile (normalizePath q) = Except.ok t) :
    ∀ c : BuildContext,
      (ps.foldl (copyOne config sys) (c, none)).2 = none := by
  induction ps with
  | nil => intro c; rfl
  | cons p rest ih =>
    intro c
    rcases hok p (List.mem_cons_self _ _) with ⟨t, ht⟩
    simp only [List.foldl_cons]
    rw [copyOne_ok config sys c none p t ht]
    exact ih (fun q hq => hok q (List.mem_cons_of_mem _ hq)) _

theorem copySourceSass_off (config : BuildConfig) (sys : Sys) (ctx : BuildContext)
    (res : CompileResults) (h : config.generateCollection = false) :
    copySourceSassFilesToDest config sys ctx res = (ctx, Except.ok ()) := by
  simp [copySourceSassFilesToDest, h]

theorem copySourceSass_on (config : BuildConfig) (sys : Sys) (ctx : BuildContext)
    (res : CompileResults) (h : config.generateCollection = true) :
    copySourceSassFilesToDest config sys ctx res =
      ((res.includedSassFiles.foldl (copyOne config sys) (ctx, none)).1,
        match (res.includedSassFiles.foldl (copyOne config sys) (ctx, none)).2 with
        | some e => Except.error e
        | none => Except.ok ()) := by
  simp [copySourceSassFilesToDest, h]

theorem compileSrcDir_transpile_error (config : BuildConfig) (sys : Sys)
    (collab : Collaborators) (root : Option FsEntry) (ctx : BuildContext) (e : String)
    (h : collab.transpileFn config ctx
        (scanDir config sys config.src root emptyCompileResults).moduleFiles =
      Except.error e) :
    compileSrcDir config sys collab root ctx =
      (ctx,
        { scanDir config sys config.src root emptyCompileResults with
          diagnostics :=
            catchError (scanDir config sys config.src root emptyCompileResults).diagnostics e }) := by
  simp only [compileSrcDir, h]

theorem compileSrcDir_manifest_error (config : BuildConfig) (sys : Sys)
    (collab : Collaborators) (root : Option FsEntry) (ctx : BuildContext)
    (tr : TranspileResults) (merged : BuildContext × CompileResults) (e : String)
    (ht : collab.transpileFn config ctx
        (scanDir config sys config.src root emptyCompileResults).moduleFiles = Except.ok tr)
    (hm : merged =
      mergeTranspiled config ctx
        { scanDir config sys config.src root emptyCompileResults with
          diagnostics :=
            (scanDir config sys config.src root emptyCompileResults).diagnostics ++
              tr.diagnostics }
        tr.moduleFiles)
    (hmani : collab.generateManifestFn config merged.1 merged.2 = Except.error e) :
    compileSrcDir config sys collab root ctx =
      (merged.1, { merged.2 with diagnostics := catchError merged.2.diagnostics e }) := by
  subst hm
  simp only [compileSrcDir, ht, hmani]

theorem compileSrcDir_copy_error (config : BuildConfig) (sys : Sys)
    (collab : Collaborators) (root : Option FsEntry) (ctx : BuildContext)
    (tr : TranspileResults) (merged : BuildContext × CompileResults)
    (man : String) (ctx2 : BuildContext) (e : String)
    (ht : collab.transpileFn config ctx
        (scanDir config sys config.src root emptyCompileResults).moduleFiles = Except.ok tr)
    (hm : merged =
      mergeTranspiled config ctx
        { scanDir config sys config.src root emptyCompileResults with
          diagnostics :=
            (scanDir config sys config.src root emptyCompileResults).diagnostics ++
              tr.diagnostics }
        tr.moduleFiles)
    (hmani : collab.generateManifestFn config merged.1 merged.2 = Except.ok man)
    (hcopy : copySourceSassFilesToDest config sys merged.1
        { merged.2 with manifest := man } = (ctx2, Except.error e)) :
    compileSrcDir config sys collab root ctx =
      (ctx2,
        { { merged.2 with manifest := man } with
          diagnostics := catchError { merged.2 with manifest := man }.diagnostics e }) := by
  subst hm
  simp only [compileSrcDir, ht, hmani, hcopy]

theorem compileSrcDir_all_ok (config : BuildConfig) (sys : Sys)
    (collab : Collaborators) (root : Option FsEntry) (ctx : BuildContext)
    (tr : TranspileResults) (merged : BuildContext × CompileResults)
    (man : String) (ctx2 : BuildContext) (u : Unit)
    (ht : collab.transpileFn config ctx
        (scanDir config sys config.src root emptyCompileResults).moduleFiles = Except.ok tr)
    (hm : merged =
      mergeTranspiled config ctx
        { scanDir config sys config.src root emptyCompileResults with
          diagnostics :=
            (scanDir config sys config.src root emptyCompileResults).diagnostics ++
              tr.diagnostics }
        tr.moduleFiles)
    (hmani : collab.generateManifestFn config merged.1 merged.2 = Except.ok man)
    (hcopy : copySourceSassFilesToDest config sys merged.1
        { merged.2 with manifest := man } = (ctx2, Except.ok u)) :
    compileSrcDir config sys collab root ctx = (ctx2, { merged.2 with manifest := man }) := by
  subst hm
  simp only [compileSrcDir, ht, hmani, hcopy]

/-- C4 (counterexample): for a configuration whose source root does not exist
(the listing call on the root fails), the scan resolves with empty results but
records zero diagnostics, not exactly one `ScanError` diagnostic as claimed. -/
theorem scanDir_missing_root_cx :
    scanDir demoConfig demoSys "/src" none emptyCompileResults = emptyCompileResults ∧
    (scanDir demoConfig demoSys "/src" none emptyCompileResults).diagnostics.length ≠ 1 := by
  refine ⟨rfl, ?_⟩
  simp [scanDir, emptyCompileResults]

/-- C4 (amended): for every configuration whose source root does not exist
(the directory-listing call on it fails), the scan resolves with the
accumulator unchanged — empty discovered results and no recorded diagnostic —
rather than the build aborting. -/
theorem scanDir_missing_root_silent (config : BuildConfig) (sys : Sys) (dir : String)
    (acc : CompileResults) : scanDir config sys dir none acc = acc := rfl

/-- C8: with `generateCollection = false` the asset-mirroring step performs no
writes: the pending-write map is returned untouched, whatever assets were
discovered. -/
theorem copy_noop_without_collection (config : BuildConfig) (sys : Sys)
    (ctx : BuildContext) (res : CompileResults)
    (h : config.generateCollection = false) :
    copySourceSassFilesToDest config sys ctx res = (ctx, Except.ok ()) :=
  copySourceSass_off config sys ctx res h

/-- C8 (witness): at the concrete configuration with collection output off and
a non-empty discovered-asset list, the pending-write map receives no entry. -/
theorem copy_noop_without_collection_w :
    copySourceSassFilesToDest demoConfigOff demoSys demoCtx
      { emptyCompileResults with
        includedSassFiles := ["/src/a.scss", "/src/b.scss"] } =
      (demoCtx, Except.ok ()) :=
  copy_noop_without_collection demoConfigOff demoSys demoCtx
    { emptyCompileResults with includedSassFiles := ["/src/a.scss", "/src/b.scss"] } rfl

/-- C10: merging one transpiled unit adds the pending-write entry
(produced output path -> produced output text) exactly when
`generateCollection` is true, and adds nothing to the pending-write map when
the flag is false. -/
theorem merge_unit_pending_write (config : BuildConfig)
    (st : BuildContext × CompileResults) (km : String × ModuleFile) :
    ((mergeUnit config st km).1.filesToWrite =
      (if config.generateCollection then
        setAssoc st.1.filesToWrite km.2.jsFilePath km.2.jsText
      else st.1.filesToWrite)) ∧
    (config.generateCollection = true →
      lookupAssoc (mergeUnit config st km).1.filesToWrite km.2.jsFilePath =
        some km.2.jsText) ∧
    (config.generateCollection = false → (mergeUnit config st km).1 = st.1) := by
  refine ⟨?_, ?_, ?_⟩
  · rw [mergeUnit_fst]
    by_cases h : config.generateCollection = true
    · simp [h]
    · simp only [Bool.not_eq_true] at h
      simp [h]
  · intro h
    rw [mergeUnit_fst, if_pos h]
    exact lookupAssoc_setAssoc_self _ _ _
  · intro h
    rw [mergeUnit_fst, if_neg (by simp [h])]

/-- C10 (witness): at a concrete unit, the output text is pending under the
output path when the flag is on, and the context is untouched when it is off. -/
theorem merge_unit_pending_write_w :
    (lookupAssoc
        (mergeUnit demoConfig (demoCtx, emptyCompileResults) ("/src/a.ts", demoUnit)).1.filesToWrite
        demoUnit.jsFilePath = some demoUnit.jsText) ∧
    (mergeUnit demoConfigOff (demoCtx, emptyCompileResults) ("/src/a.ts", demoUnit)).1 =
      demoCtx :=
  ⟨(merge_unit_pending_write demoConfig (demoCtx, emptyCompileResults)
      ("/src/a.ts", demoUnit)).2.1 rfl,
    (merge_unit_pending_write demoConfigOff (demoCtx, emptyCompileResults)
      ("/src/a.ts", demoUnit)).2.2 rfl⟩

/-- C5: for a discovered asset whose read succeeds, the pending-write
destination is `joinPath(collectionDest, relativePath(src, assetPath))` when
the (normalized) asset path has `config.src` as a prefix, and
`joinPath(rootDir, relativePath(rootDir, assetPath))` otherwise. -/
theorem copy_dest_policy (config : BuildConfig) (sys : Sys) (ctx : BuildContext)
    (o : Option String) (p t : String)
    (hread : sys.readFile (normalizePath p) = Except.ok t) :
    (strStartsWith (normalizePath p) config.src = true →
      copyOne config sys (ctx, o) p =
        ({ filesToWrite :=
            setAssoc ctx.filesToWrite
              (normalizePath
                (sys.join config.collectionDest
                  (sys.relative config.src (normalizePath p)))) t },
          o)) ∧
    (strStartsWith (normalizePath p) config.src = false →
      copyOne config sys (ctx, o) p =
        ({ filesToWrite :=
            setAssoc ctx.filesToWrite
              (normalizePath
                (sys.join config.rootDir
                  (sys.relative config.rootDir (normalizePath p)))) t },
          o)) := by
  rw [copyOne_ok config sys ctx o p t hread]
  constructor
  · intro h
    rw [if_pos h]
  · intro h
    have h2 : ¬ (strStartsWith (normalizePath p) config.src = true) := by
      rw [h]
      exact Bool.false_ne_true
    rw [if_neg h2]

/-- C5 (witness): one asset inside the source root mirrors under the
collection destination, one outside mirrors relative to the project root. -/
theorem copy_dest_policy_w :
    copyOne demoConfig demoSys (demoCtx, none) "/src/styles/a.scss" =
      ({ filesToWrite :=
          setAssoc demoCtx.filesToWrite
            (normalizePath
              (demoSys.join demoConfig.collectionDest
                (demoSys.relative demoConfig.src (normalizePath "/src/styles/a.scss"))))
            "content /src/styles/a.scss" },
        none) ∧
    copyOne demoConfig demoSys (demoCtx, none) "/other/b.scss" =
      ({ filesToWrite :=
          setAssoc demoCtx.filesToWrite
            (normalizePath
              (demoSys.join demoConfig.rootDir
                (demoSys.relative demoConfig.rootDir (normalizePath "/other/b.scss"))))
            "content /other/b.scss" },
        none) :=
  ⟨(copy_dest_policy demoConfig demoSys demoCtx none "/src/styles/a.scss"
      "content /src/styles/a.scss" rfl).1 (by decide),
    (copy_dest_policy demoConfig demoSys demoCtx none "/other/b.scss"
      "content /other/b.scss" rfl).2 (by decide)⟩

/-- C9: merging any list of transpiled units appends their referenced asset
paths without duplicates: a path already present is skipped, the result is the
old list followed by the first occurrences of the new paths in discovery
order, it is duplicate-free, and it holds exactly the old and the referenced
paths. -/
theorem merge_assets_dedup (config : BuildConfig) (ctx : BuildContext)
    (res : CompileResults) (mfs : List (String × ModuleFile))
    (hnd : res.includedSassFiles.Nodup) :
    ((mergeTranspiled config ctx res (some mfs)).2.includedSassFiles =
      res.includedSassFiles ++
        firstOccurrences res.includedSassFiles (flatAssets mfs)) ∧
    (mergeTranspiled config ctx res (some mfs)).2.includedSassFiles.Nodup ∧
    (∀ x, x ∈ (mergeTranspiled config ctx res (some mfs)).2.includedSassFiles ↔
      x ∈ res.includedSassFiles ∨ x ∈ flatAssets mfs) := by
  have h0 : (mergeTranspiled config ctx res (some mfs)).2.includedSassFiles =
      pushUniqueAll res.includedSassFiles (flatAssets mfs) := by
    rw [mergeTranspiled_some]
    exact mergeFold_includedSass config mfs (ctx, res)
  refine ⟨?_, ?_, ?_⟩
  · rw [h0, pushUniqueAll_eq_firstOccurrences]
  · rw [h0, pushUniqueAll_eq_firstOccurrences, List.nodup_append]
    refine ⟨hnd, firstOccurrences_nodup _ _, ?_⟩
    intro a ha hb
    exact (mem_firstOccurrences (flatAssets mfs) res.includedSassFiles a hb).1 ha
  · intro x
    rw [h0]
    exact mem_pushUniqueAll (flatAssets mfs) res.includedSassFiles x

/-- C9 (witness): two units referencing the same asset merge into a
duplicate-free asset list. -/
theorem merge_assets_dedup_w :
    (mergeTranspiled demoConfig demoCtx
        { emptyCompileResults with includedSassFiles := ["/src/x.scss"] }
        (some [("/src/a.ts", demoUnit), ("/src/b.ts", demoUnit)])).2.includedSassFiles.Nodup :=
  (merge_assets_dedup demoConfig demoCtx
    { emptyCompileResults with includedSassFiles := ["/src/x.scss"] }
    [("/src/a.ts", demoUnit), ("/src/b.ts", demoUnit)] (by decide)).2.1

/-- C3: exclusion policy of the scan. A path that contains a configured
pattern as a substring is classified excluded; a path containing no pattern is
never excluded; an entry whose joined path is excluded is skipped whole, so no
descendant of it is scanned; and every key the scan adds to the module-file
map passes the exclusion check. -/
theorem scan_exclusion_policy (config : BuildConfig) (sys : Sys) :
    (∀ pat ∈ config.exclude, ∀ l r : String,
        isValidDirectory config.exclude (l ++ pat ++ r) = false) ∧
    (∀ path : String,
        (∀ pat ∈ config.exclude, strContains path pat = false) →
        isValidDirectory config.exclude path = true) ∧
    (∀ (dir name : String) (child : FsEntry) (rest : List (String × FsEntry))
        (acc : CompileResults),
        isValidDirectory config.exclude (sys.join dir name) = false →
        scanItems config sys dir ((name, child) :: rest) acc =
          scanItems config sys dir rest acc) ∧
    (∀ (dir : String) (items : List (String × FsEntry)) (acc : CompileResults)
        (k : String),
        k ∈ keysOf (scanItems config sys dir items acc).moduleFiles →
        k ∈ keysOf acc.moduleFiles ∨ isValidDirectory config.exclude k = true) := by
  refine ⟨?_, ?_, ?_, ?_⟩
  · intro pat hp l r
    exact isValidDirectory_eq_false config.exclude _ pat hp (strContains_of_parts l pat r)
  · intro path h
    exact isValidDirectory_eq_true config.exclude path h
  · intro dir name child rest acc hv
    cases child <;> simp [scanItems, hv]
  · intro dir items acc k hk
    rw [scanItems_eq] at hk
    simp only at hk
    rcases mem_keysOf_foldl_mfAdd _ _ _ hk with h | h
    · exact Or.inl h
    · exact Or.inr (scanTsPaths_valid config.exclude sys dir items k h)

/-- C3 (witness): at the concrete configuration, a path containing the pattern
is excluded, a clean path is not, the excluded entry is skipped whole, and a
registered key passes the check. -/
theorem scan_exclusion_policy_w :
    isValidDirectory demoConfig.exclude ("/src/" ++ "ignored" ++ "/d.ts") = false ∧
    isValidDirectory demoConfig.exclude "/src/a.ts" = true ∧
    scanItems demoConfig demoSys "/src"
        [("ignored", FsEntry.dir [("d.ts", FsEntry.file)])] emptyCompileResults =
      scanItems demoConfig demoSys "/src" [] emptyCompileResults ∧
    ("/src/a.ts" ∈ keysOf emptyCompileResults.moduleFiles ∨
      isValidDirectory demoConfig.exclude "/src/a.ts" = true) := by
  have H := scan_exclusion_policy demoConfig demoSys
  refine ⟨?_, ?_, ?_, ?_⟩
  · exact H.1 "ignored" (by simp [demoConfig]) "/src/" "/d.ts"
  · refine H.2.1 "/src/a.ts" ?_
    intro pat hp
    simp only [demoConfig] at hp
    simp only [List.mem_singleton] at hp
    subst hp
    decide
  · exact H.2.2.1 "/src" "ignored" (FsEntry.dir [("d.ts", FsEntry.file)]) []
      emptyCompileResults (by decide)
  · refine H.2.2.2 "/src" [("a.ts", FsEntry.file)] emptyCompileResults "/src/a.ts" ?_
    simp only [scanItems]
    decide

/-- C6: when the stat call fails on exactly one entry among its siblings (the
other entries being failure-free and nothing excluded), exactly one diagnostic
carrying that entry's error is appended, and every sibling compilable file
still appears in the module-file map. -/
theorem scan_stat_failure_local (config : BuildConfig) (sys : Sys)
    (dir name msg : String) (pre post : List (String × FsEntry)) (acc : CompileResults)
    (hpre : itemsNoFsErrors pre = true) (hpost : itemsNoFsErrors post = true)
    (hvalid : itemsAllValid config.exclude sys dir
        (pre ++ (name, FsEntry.statFail msg) :: post) = true) :
    ((scanItems config sys dir (pre ++ (name, FsEntry.statFail msg) :: post) acc).diagnostics =
      acc.diagnostics ++ [Diagnostic.mk msg]) ∧
    (∀ p, p ∈ allTsPaths sys dir pre ∨ p ∈ allTsPaths sys dir post →
      p ∈ keysOf (scanItems config sys dir
          (pre ++ (name, FsEntry.statFail msg) :: post) acc).moduleFiles) := by
  rw [itemsAllValid_append] at hvalid
  simp only [Bool.and_eq_true] at hvalid
  obtain ⟨hvpre, hvcons⟩ := hvalid
  have hvcons2 := hvcons
  simp only [itemsAllValid, Bool.and_eq_true] at hvcons2
  obtain ⟨hvbad, hvpost⟩ := hvcons2
  constructor
  · rw [scanItems_eq]
    simp only
    rw [scanStatFails_append, scanStatFails_nil_of_noFsErrors _ _ _ _ hpre]
    simp only [scanStatFails, hvbad, if_true,
      scanStatFails_nil_of_noFsErrors _ _ _ _ hpost]
    simp
  · intro p hp
    rw [scanItems_eq]
    simp only
    rw [scanTsPaths_append]
    have hbadpost : scanTsPaths config.exclude sys dir
        ((name, FsEntry.statFail msg) :: post) = scanTsPaths config.exclude sys dir post := by
      simp [scanTsPaths]
    rw [hbadpost, scanTsPaths_eq_allTsPaths _ _ _ _ hvpre,
      scanTsPaths_eq_allTsPaths _ _ _ _ hvpost]
    refine mem_keysOf_foldl_mfAdd_self _ _ p ?_
    rcases hp with hp | hp
    · exact List.mem_append_left _ hp
    · exact List.mem_append_right _ hp

/-- C6 (witness): a failing stat between two typed-script siblings yields
exactly one diagnostic and both siblings in the module-file map. -/
theorem scan_stat_failure_local_w :
    ((scanItems demoConfig demoSys "/src"
        ([("a.ts", FsEntry.file)] ++
          ("broken", FsEntry.statFail "EACCES broken") :: [("c.ts", FsEntry.file)])
        emptyCompileResults).diagnostics =
      emptyCompileResults.diagnostics ++ [Diagnostic.mk "EACCES broken"]) ∧
    "/src/a.ts" ∈ keysOf (scanItems demoConfig demoSys "/src"
        ([("a.ts", FsEntry.file)] ++
          ("broken", FsEntry.statFail "EACCES broken") :: [("c.ts", FsEntry.file)])
        emptyCompileResults).moduleFiles := by
  have H := scan_stat_failure_local demoConfig demoSys "/src" "broken" "EACCES broken"
    [("a.ts", FsEntry.file)] [("c.ts", FsEntry.file)] emptyCompileResults
    (by simp [itemsNoFsErrors]) (by simp [itemsNoFsErrors])
    (by simp only [List.cons_append, List.nil_append, itemsAllValid]; decide)
  refine ⟨H.1, H.2 "/src/a.ts" (Or.inl ?_)⟩
  simp only [allTsPaths]
  decide

theorem mergeTranspiled_keysOf (config : BuildConfig) (ctx : BuildContext)
    (res : CompileResults) (o : Option (List (String × ModuleFile)))
    (hsub : ∀ mfs, o = some mfs → ∀ k ∈ keysOf mfs, k ∈ keysOf res.moduleFiles) :
    keysOf (mergeTranspiled config ctx res o).2.moduleFiles = keysOf res.moduleFiles := by
  cases o with
  | none => rfl
  | some mfs =>
    rw [mergeTranspiled_some]
    exact mergeFold_keysOf config mfs (ctx, res) (hsub mfs rfl)

theorem compileSrcDir_keysOf_eq (config : BuildConfig) (sys : Sys)
    (collab : Collaborators) (root : Option FsEntry) (ctx : BuildContext)
    (hcontract : ∀ tr, collab.transpileFn config ctx
        (scanDir config sys config.src root emptyCompileResults).moduleFiles =
          Except.ok tr →
      ∀ mfs, tr.moduleFiles = some mfs →
      ∀ k ∈ keysOf mfs,
        k ∈ keysOf (scanDir config sys config.src root emptyCompileResults).moduleFiles) :
    keysOf (compileSrcDir config sys collab root ctx).2.moduleFiles =
      keysOf (scanDir config sys config.src root emptyCompileResults).moduleFiles := by
  rcases htrans : collab.transpileFn config ctx
      (scanDir config sys config.src root emptyCompileResults).moduleFiles with e | tr
  · rw [compileSrcDir_transpile_error config sys collab root ctx e htrans]
  · have hmk : keysOf (mergeTranspiled config ctx
        { scanDir config sys config.src root emptyCompileResults with
          diagnostics :=
            (scanDir config sys config.src root emptyCompileResults).diagnostics ++
              tr.diagnostics }
        tr.moduleFiles).2.moduleFiles =
        keysOf (scanDir config sys config.src root emptyCompileResults).moduleFiles :=
      mergeTranspiled_keysOf config ctx _ tr.moduleFiles
        (fun mfs hmf k hk => hcontract tr htrans mfs hmf k hk)
    rcases hmani : collab.generateManifestFn config
        (mergeTranspiled config ctx
          { scanDir config sys config.src root emptyCompileResults with
            diagnostics :=
              (scanDir config sys config.src root emptyCompileResults).diagnostics ++
                tr.diagnostics }
          tr.moduleFiles).1
        (mergeTranspiled config ctx
          { scanDir config sys config.src root emptyCompileResults with
            diagnostics :=
              (scanDir config sys config.src root emptyCompileResults).diagnostics ++
                tr.diagnostics }
          tr.moduleFiles).2 with e2 | man
    · rw [compileSrcDir_manifest_error config sys collab root ctx tr _ e2 htrans rfl hmani]
      exact hmk
    · rcases hcopy : copySourceSassFilesToDest config sys
          (mergeTranspiled config ctx
            { scanDir config sys config.src root emptyCompileResults with
              diagnostics :=
                (scanDir config sys config.src root emptyCompileResults).diagnostics ++
                  tr.diagnostics }
            tr.moduleFiles).1
          { (mergeTranspiled config ctx
              { scanDir config sys config.src root emptyCompileResults with
                diagnostics :=
                  (scanDir config sys config.src root emptyCompileResults).diagnostics ++
                    tr.diagnostics }
              tr.moduleFiles).2 with manifest := man } with ⟨ctx2, r⟩
      cases r with
      | error e3 =>
        rw [compileSrcDir_copy_error config sys collab root ctx tr _ man ctx2 e3 htrans rfl
          hmani hcopy]
        exact hmk
      | ok u =>
        rw [compileSrcDir_all_ok config sys collab root ctx tr _ man ctx2 u htrans rfl
          hmani hcopy]
        exact hmk

/-- C2: on a source tree with no listing or stat failures, under the
concatenating path join, with distinct file paths, and with a transpiler that
returns units only for requested paths, a full pipeline run produces a
module-file map keyed by exactly the compilable files that no exclusion
pattern matches — one entry per such file. -/
theorem compileSrcDir_moduleFiles_complete (config : BuildConfig) (sys : Sys)
    (collab : Collaborators) (entries : List (String × FsEntry)) (ctx : BuildContext)
    (hjoin : sys.join = slashJoin)
    (hclean : itemsNoFsErrors entries = true)
    (hnodup : (allTsPaths sys (normalizePath config.src) entries).Nodup)
    (hcontract : ∀ tr, collab.transpileFn config ctx
        (scanDir config sys config.src (some (FsEntry.dir entries))
          emptyCompileResults).moduleFiles = Except.ok tr →
      ∀ mfs, tr.moduleFiles = some mfs →
      ∀ k ∈ keysOf mfs,
        k ∈ keysOf (scanDir config sys config.src (some (FsEntry.dir entries))
          emptyCompileResults).moduleFiles) :
    keysOf (compileSrcDir config sys collab (some (FsEntry.dir entries)) ctx).2.moduleFiles =
      (allTsPaths sys (normalizePath config.src) entries).filter
        (fun p => isValidDirectory config.exclude p) := by
  rw [compileSrcDir_keysOf_eq config sys collab _ ctx hcontract]
  rw [scanDir_some_dir, scanItems_eq]
  simp only
  have hnodup2 :
      (scanTsPaths config.exclude sys (normalizePath config.src) entries).Nodup := by
    rw [scanTsPaths_filter_slash config.exclude sys hjoin]
    exact hnodup.filter _
  rw [keysOf_foldl_mfAdd_of_nodup _ _ hnodup2 (fun p _ => by simp [emptyCompileResults])]
  rw [scanTsPaths_filter_slash config.exclude sys hjoin]
  simp [emptyCompileResults]

/-- C2 (witness): the demonstration tree has three typed-script files of which
one is excluded; the final module-file map is keyed by exactly the two
non-excluded ones. -/
theorem compileSrcDir_moduleFiles_complete_w :
    keysOf (compileSrcDir demoConfig demoSys demoCollabOk
        (some (FsEntry.dir demoTree)) demoCtx).2.moduleFiles =
      (allTsPaths demoSys (normalizePath demoConfig.src) demoTree).filter
        (fun p => isValidDirectory demoConfig.exclude p) := by
  refine compileSrcDir_moduleFiles_complete demoConfig demoSys demoCollabOk demoTree demoCtx
    rfl (by simp [demoTree, itemsNoFsErrors]) ?_ ?_
  · simp only [demoTree, allTsPaths]
    decide
  · intro tr htr mfs hmfs
    cases htr
    simp at hmfs

/-- C1 (counterexample): a missing source root makes the directory-listing
call fail during the scanning phase, yet the pipeline resolves with a result
carrying zero diagnostics — that fault is not converted into an appended
diagnostic record. -/
theorem compileSrcDir_listing_fault_cx :
    compileSrcDir demoConfig demoSys demoCollabOk none demoCtx =
      (demoCtx, { emptyCompileResults with manifest := "manifest" }) ∧
    (compileSrcDir demoConfig demoSys demoCollabOk none demoCtx).2.diagnostics = [] := by
  exact ⟨rfl, rfl⟩

/-- C1 (amended): the pipeline always returns a `CompileResults` value and
never propagates a fault to the caller; a stat fault during scanning and every
fault raised by the transpile, manifest or asset-copy phase is converted into
one appended diagnostic record, while a directory-listing fault during
scanning is swallowed silently, with no diagnostic. -/
theorem compileSrcDir_fault_converted (config : BuildConfig) (sys : Sys)
    (collab : Collaborators) (root : Option FsEntry) (ctx : BuildContext) :
    (∀ (dir name msg : String) (rest : List (String × FsEntry)) (acc : CompileResults),
        isValidDirectory config.exclude (sys.join dir name) = true →
        Diagnostic.mk msg ∈
          (scanItems config sys dir ((name, FsEntry.statFail msg) :: rest) acc).diagnostics) ∧
    (∀ (dir : String) (acc : CompileResults), scanDir config sys dir none acc = acc) ∧
    (∀ e, collab.transpileFn config ctx
          (scanDir config sys config.src root emptyCompileResults).moduleFiles =
        Except.error e →
      compileSrcDir config sys collab root ctx =
        (ctx,
          { scanDir config sys config.src root emptyCompileResults with
            diagnostics :=
              catchError
                (scanDir config sys config.src root emptyCompileResults).diagnostics e })) ∧
    (∀ (tr : TranspileResults) (merged : BuildContext × CompileResults) (e : String),
        collab.transpileFn config ctx
            (scanDir config sys config.src root emptyCompileResults).moduleFiles =
          Except.ok tr →
        merged = mergeTranspiled config ctx
            { scanDir config sys config.src root emptyCompileResults with
              diagnostics :=
                (scanDir config sys config.src root emptyCompileResults).diagnostics ++
                  tr.diagnostics }
            tr.moduleFiles →
        collab.generateManifestFn config merged.1 merged.2 = Except.error e →
        compileSrcDir config sys collab root ctx =
          (merged.1, { merged.2 with diagnostics := catchError merged.2.diagnostics e })) ∧
    (∀ (tr : TranspileResults) (merged : BuildContext × CompileResults)
        (man : String) (ctx2 : BuildContext) (e : String),
        collab.transpileFn config ctx
            (scanDir config sys config.src root emptyCompileResults).moduleFiles =
          Except.ok tr →
        merged = mergeTranspiled config ctx
            { scanDir config sys config.src root emptyCompileResults with
              diagnostics :=
                (scanDir config sys config.src root emptyCompileResults).diagnostics ++
                  tr.diagnostics }
            tr.moduleFiles →
        collab.generateManifestFn config merged.1 merged.2 = Except.ok man →
        copySourceSassFilesToDest config sys merged.1
            { merged.2 with manifest := man } = (ctx2, Except.error e) →
        compileSrcDir config sys collab root ctx =
          (ctx2,
            { { merged.2 with manifest := man } with
              diagnostics :=
                catchError { merged.2 with manifest := man }.diagnostics e })) := by
  refine ⟨?_, ?_, ?_, ?_, ?_⟩
  · intro dir name msg rest acc hv
    rw [scanItems_eq]
    simp only
    simp [scanStatFails, hv]
  · intro dir acc
    rfl
  · intro e he
    exact compileSrcDir_transpile_error config sys collab root ctx e he
  · intro tr merged e ht hm hmani
    exact compileSrcDir_manifest_error config sys collab root ctx tr merged e ht hm hmani
  · intro tr merged man ctx2 e ht hm hmani hcopy
    exact compileSrcDir_copy_error config sys collab root ctx tr merged man ctx2 e ht hm
      hmani hcopy

/-- C1 (witness): a stat fault, a swallowed listing fault, a transpile fault,
a manifest fault and an asset-read fault, each at a concrete input; every
converted fault shows up in the returned diagnostics. -/
theorem compileSrcDir_fault_converted_w :
    Diagnostic.mk "stat boom" ∈
      (scanItems demoConfig demoSys "/src" [("x", FsEntry.statFail "stat boom")]
        emptyCompileResults).diagnostics ∧
    scanDir demoConfig demoSys "/src" none emptyCompileResults = emptyCompileResults ∧
    Diagnostic.mk "transpile boom" ∈
      (compileSrcDir demoConfig demoSys demoCollabTransErr none demoCtx).2.diagnostics ∧
    Diagnostic.mk "manifest boom" ∈
      (compileSrcDir demoConfig demoSys demoCollabManErr none demoCtx).2.diagnostics ∧
    Diagnostic.mk "boom bad.scss" ∈
      (compileSrcDir demoConfig demoSysBad demoCollabAsset none demoCtx).2.diagnostics := by
  refine ⟨?_, ?_, ?_, ?_, ?_⟩
  · exact (compileSrcDir_fault_converted demoConfig demoSys demoCollabOk none demoCtx).1
      "/src" "x" "stat boom" [] emptyCompileResults (by decide)
  · exact (compileSrcDir_fault_converted demoConfig demoSys demoCollabOk none
      demoCtx).2.1 "/src" emptyCompileResults
  · have H := (compileSrcDir_fault_converted demoConfig demoSys demoCollabTransErr none
      demoCtx).2.2.1 "transpile boom" rfl
    rw [H]
    simp [catchError]
  · have H := (compileSrcDir_fault_converted demoConfig demoSys demoCollabManErr none
      demoCtx).2.2.2.1 { diagnostics := [], moduleFiles := none } _ "manifest boom"
      rfl rfl rfl
    rw [H]
    simp [catchError]
  · have H := (compileSrcDir_fault_converted demoConfig demoSysBad demoCollabAsset none
      demoCtx).2.2.2.2 { diagnostics := [], moduleFiles := some [("/src/a.ts", demoUnit)] }
      _ "manifest" _ "boom bad.scss" rfl rfl rfl rfl
    rw [H]
    simp [catchError]

/-- C7: when reading exactly one asset among the discovered list fails, the
aggregated copy step still records a pending write for every other asset (the
failing one is skipped), and it reports the read fault, which the orchestrator
converts into exactly one appended diagnostic for that failure. -/
theorem copy_read_failure_local (config : BuildConfig) (sys : Sys) (ctx : BuildContext)
    (res : CompileResults) (pre post : List String) (bad e : String)
    (hgen : config.generateCollection = true)
    (hsass : res.includedSassFiles = pre ++ bad :: post)
    (hpre : ∀ q ∈ pre, ∃ t, sys.readFile (normalizePath q) = Except.ok t)
    (hbad : sys.readFile (normalizePath bad) = Except.error e)
    (hpost : ∀ q ∈ post, ∃ t, sys.readFile (normalizePath q) = Except.ok t) :
    (copySourceSassFilesToDest config sys ctx res =
      (((pre ++ post).foldl (copyOne config sys) (ctx, none)).1, Except.error e)) ∧
    (∀ (collab : Collaborators) (root : Option FsEntry) (ctx0 : BuildContext)
        (tr : TranspileResults) (merged : BuildContext × CompileResults)
        (man : String) (ctx2 : BuildContext),
        collab.transpileFn config ctx0
            (scanDir config sys config.src root emptyCompileResults).moduleFiles =
          Except.ok tr →
        merged = mergeTranspiled config ctx0
            { scanDir config sys config.src root emptyCompileResults with
              diagnostics :=
                (scanDir config sys config.src root emptyCompileResults).diagnostics ++
                  tr.diagnostics }
            tr.moduleFiles →
        collab.generateManifestFn config merged.1 merged.2 = Except.ok man →
        copySourceSassFilesToDest config sys merged.1
            { merged.2 with manifest := man } = (ctx2, Except.error e) →
        (compileSrcDir config sys collab root ctx0).2.diagnostics =
          { merged.2 with manifest := man }.diagnostics ++ [Diagnostic.mk e]) := by
  constructor
  · rw [copySourceSass_on config sys ctx res hgen, hsass, List.foldl_append]
    rcases hsplit : pre.foldl (copyOne config sys) (ctx, none) with ⟨c1, o1⟩
    have ho1 : o1 = none := by
      have h2 := copyFold_ok_none config sys pre hpre ctx
      rw [hsplit] at h2
      exact h2
    subst ho1
    rw [List.foldl_cons, copyOne_error config sys c1 none bad e hbad]
    have hsnd := copyFold_some config sys post c1 e
    have hfst : (post.foldl (copyOne config sys) (c1, some e)).1 =
        ((pre ++ post).foldl (copyOne config sys) (ctx, none)).1 := by
      rw [List.foldl_append, hsplit]
      exact copyFold_fst_indep config sys post c1 (some e) none
    rw [hsnd, hfst]
  · intro collab root ctx0 tr merged man ctx2 ht hm hmani hcopy
    rw [compileSrcDir_copy_error config sys collab root ctx0 tr merged man ctx2 e ht hm
      hmani hcopy]
    rfl

/-- C7 (witness): of three discovered assets the middle read fails; the other
two are still written, the step reports the failure, and the pipeline records
exactly one diagnostic for it. -/
theorem copy_read_failure_local_w :
    (copySourceSassFilesToDest demoConfig demoSysBad demoCtx
        { emptyCompileResults with
          includedSassFiles := ["/src/a.scss", "/src/bad.scss", "/src/c.scss"] } =
      (((["/src/a.scss"] ++ ["/src/c.scss"]).foldl (copyOne demoConfig demoSysBad)
          (demoCtx, none)).1,
        Except.error "boom bad.scss")) ∧
    (compileSrcDir demoConfig demoSysBad demoCollabAsset none demoCtx).2.diagnostics =
      [Diagnostic.mk "boom bad.scss"] := by
  have H := copy_read_failure_local demoConfig demoSysBad demoCtx
    { emptyCompileResults with
      includedSassFiles := ["/src/a.scss", "/src/bad.scss", "/src/c.scss"] }
    ["/src/a.scss"] ["/src/c.scss"] "/src/bad.scss" "boom bad.scss"
    rfl rfl
    (by
      intro q hq
      rw [List.mem_singleton] at hq
      subst hq
      exact ⟨_, rfl⟩)
    rfl
    (by
      intro q hq
      rw [List.mem_singleton] at hq
      subst hq
      exact ⟨_, rfl⟩)
  refine ⟨H.1, ?_⟩
  exact H.2 demoCollabAsset none demoCtx
    { diagnostics := [], moduleFiles := some [("/src/a.ts", demoUnit)] }
    _ "manifest" _ rfl rfl rfl rfl

end Stencil
